import Mathlib

/-!
# Verification of the MII deployment topology planner and dispatcher

A shallow embedding of the replica planner (`_allocate_processes`), the port
allocator loop (`generate_replica_configs` / `allocate_processes`), the
tensor-parallel dispatch client (`_query_in_tensor_parallel` / `query`), the
startup wait loop (`_wait_until_server_is_live`), and the configuration
serialization pipeline (`_initialize_service` / `b64_encoded_config`),
together with theorems settling the specification's claims about them.

Python dictionaries are modelled as association lists in insertion order
(Python 3.7+ dict iteration order); Python sets of ports are modelled as
lists with membership semantics; bytes are modelled as natural numbers with
explicit `< 256` bounds where byte-faithfulness matters.
-/

namespace MII

/-- Errors raised by `_allocate_processes` (`mii/config.py`, `mii/deployment.py`).
`hostNotFound` and `insufficientSlots` model the two `assert`/`raise`
messages that name a host; `insufficientCapacity` models the final
`"Not sufficient GPUs for {replica_num} replica(s), only {allocated_num}
replica(s) can be deployed"` error carrying both counts; `noHosts` models
the `assert resource_pool is not None and len(resource_pool) > 0`. -/
inductive AllocError where
  | noHosts : AllocError
  | hostNotFound (host : String) : AllocError
  | insufficientSlots (host : String) (slots required : Nat) : AllocError
  | insufficientCapacity (requested allocated : Nat) : AllocError
deriving DecidableEq, Repr

/-- One replica assignment `(host, gpu_indices)` as appended to `replica_pool`. -/
abbrev Assign := String × List Nat

/-- First-match association-list lookup, modelling `host in resource_pool` /
`resource_pool[host]` on the hostfile dictionary. -/
def lookupHost : List (String × Nat) → String → Option Nat
  | [], _ => none
  | (h, s) :: rest, host => if h = host then some s else lookupHost rest host

/-- The inner `while available_on_host >= tensor_parallel` loop of
`_allocate_processes` (config.py lines 287-309, deployment.py lines 301-320),
carving windows of `tp` GPU indices from one host.  The loop body appends
`(host, [allocated_num_on_host, ..., allocated_num_on_host + tp - 1])` with
`allocated_num_on_host = slots - available_on_host`, increments the global
`allocated_num`, and decrements `available_on_host` by `tp`; it breaks as
soon as `replica_num` assignments exist, and re-raises the (unreachable in
context) `slots < tensor_parallel` error.  `fuel` bounds the iteration count
so the definition is structural; `fuel = avail + 1` is always sufficient for
`0 < tp`. -/
def carveLoop (host : String) (slots tp rn : Nat) :
    Nat → Nat → Nat → Except AllocError (List Assign × Nat)
  | _, alloc, 0 => .ok ([], alloc)
  | avail, alloc, fuel + 1 =>
    if tp ≤ avail then
      if rn ≤ alloc then .ok ([], alloc)
      else if slots < tp then .error (.insufficientSlots host slots tp)
      else
        match carveLoop host slots tp rn (avail - tp) (alloc + 1) fuel with
        | .error e => .error e
        | .ok (rest, a') =>
          .ok ((host, (List.range tp).map (fun j => (slots - avail) + j)) :: rest, a')
    else .ok ([], alloc)

/-- One host's contribution to the automatic allocation: run the carving
loop with `available_on_host = slots` and sufficient fuel.  The `tp = 0`
case mirrors the Python loop's behaviour there (the while-condition
`avail >= 0` always holds, each iteration appends an empty index window,
and the loop exits via the `allocated_num >= replica_num` break). -/
def carveHost (host : String) (slots tp rn alloc : Nat) :
    Except AllocError (List Assign × Nat) :=
  if tp = 0 then
    .ok ((List.range (rn - alloc)).map (fun _ => (host, [])), max alloc rn)
  else carveLoop host slots tp rn slots alloc (slots + 1)

/-- The host scan of `_allocate_processes` without `GPU_index_map`:
`for host, slots in resource_pool.items(): ...` followed by the final
`allocated_num < replica_num` capacity check. -/
def allocateAutoGo (tp rn : Nat) :
    List (String × Nat) → Nat → List Assign → Except AllocError (List Assign)
  | [], alloc, acc =>
    if alloc < rn then .error (.insufficientCapacity rn alloc) else .ok acc
  | (host, slots) :: rest, alloc, acc =>
    match carveHost host slots tp rn alloc with
    | .error e => .error e
    | .ok (asgs, alloc') => allocateAutoGo tp rn rest alloc' (acc ++ asgs)

/-- The `GPU_index_map` validation loop of `_allocate_processes`: every
listed host must exist in the resource pool and have at least
`tensor_parallel` slots; the first violation raises. -/
def checkIndexMap (pool : List (String × Nat)) (tp : Nat) :
    List (String × List Nat) → Except AllocError Unit
  | [] => .ok ()
  | (host, _) :: rest =>
    match lookupHost pool host with
    | none => .error (.hostNotFound host)
    | some s =>
      if s < tp then .error (.insufficientSlots host s tp)
      else checkIndexMap pool tp rest

/-- `_allocate_processes(hostfile_path, tensor_parallel, replica_num,
GPU_index_map)` (config.py lines 270-316, deployment.py lines 282-327), with
the already-fetched resource pool as input.  In explicit mode the replica
pool is exactly the `(host, GPU_index_map[host])` pairs in mapping order. -/
def allocateProcesses (pool : List (String × Nat)) (tp rn : Nat)
    (gmap : Option (List (String × List Nat))) : Except AllocError (List Assign) :=
  if pool = [] then .error .noHosts
  else
    match gmap with
    | some m =>
      match checkIndexMap pool tp m with
      | .error e => .error e
      | .ok _ => .ok m
    | none => allocateAutoGo tp rn pool 0 []

/-- Number of windows of size `tp` that fit on each host, summed: the total
number of replicas the automatic planner can carve from the pool. -/
def totalCarves (pool : List (String × Nat)) (tp : Nat) : Nat :=
  (pool.map (fun p => p.2 / tp)).sum

/-- The carve windows of one host as the specification describes them: the
k-th carve on a host receives slot indices `[k*tp, (k+1)*tp)`. -/
def hostCarves (host : String) (slots tp : Nat) : List Assign :=
  (List.range (slots / tp)).map (fun k => (host, (List.range tp).map (fun j => k * tp + j)))

/-- The placement the specification describes for automatic planning:
hosts in catalog iteration order, each contributing its carve windows in
order, truncated globally to `replicaCount` assignments. -/
def plannedCarves (pool : List (String × Nat)) (tp rn : Nat) : List Assign :=
  ((pool.map (fun p => hostCarves p.1 p.2 tp)).flatten).take rn

lemma carveLoop_eq (host : String) (slots tp rn : Nat) (htp : 0 < tp) :
    ∀ fuel avail alloc, avail ≤ slots → avail < fuel →
    carveLoop host slots tp rn avail alloc fuel =
      .ok ((List.range (min (avail / tp) (rn - alloc))).map
            (fun k => (host, (List.range tp).map (fun j => (slots - avail) + k * tp + j))),
           alloc + min (avail / tp) (rn - alloc)) := by
  intro fuel
  induction fuel with
  | zero => intro avail alloc _ h; omega
  | succ fuel ih =>
    intro avail alloc hle hfuel
    by_cases hav : tp ≤ avail
    · by_cases hrn : rn ≤ alloc
      · have h0 : rn - alloc = 0 := Nat.sub_eq_zero_of_le hrn
        simp [carveLoop, hav, hrn, h0]
      · have hslots : ¬ slots < tp := by omega
        have hrec := ih (avail - tp) (alloc + 1) (by omega) (by omega)
        have hdiv : avail / tp = (avail - tp) / tp + 1 := Nat.div_eq_sub_div htp hav
        have hmin : min (avail / tp) (rn - alloc)
            = min ((avail - tp) / tp) (rn - (alloc + 1)) + 1 := by
          rw [hdiv]
          generalize (avail - tp) / tp = d
          omega
        simp only [carveLoop, if_pos hav, if_neg hrn, if_neg hslots, hrec, hmin]
        generalize min ((avail - tp) / tp) (rn - (alloc + 1)) = m
        refine congrArg Except.ok ?_
        rw [Prod.mk.injEq]
        refine ⟨?_, by omega⟩
        rw [List.range_succ_eq_map, List.map_cons, List.map_map]
        refine congrArg₂ List.cons ?_ ?_
        · refine congrArg (Prod.mk host) (List.map_congr_left fun j _ => by omega)
        · refine List.map_congr_left fun k _ => ?_
          refine congrArg (Prod.mk host) (List.map_congr_left fun j _ => ?_)
          simp only [Function.comp, Nat.succ_eq_add_one, Nat.add_mul, Nat.one_mul]
          omega
    · have hdiv : avail / tp = 0 := Nat.div_eq_of_lt (by omega)
      simp [carveLoop, hav, hdiv]

lemma carveHost_eq (host : String) (slots tp rn alloc : Nat) (htp : 0 < tp) :
    carveHost host slots tp rn alloc =
      .ok ((hostCarves host slots tp).take (rn - alloc),
           alloc + min (slots / tp) (rn - alloc)) := by
  have h := carveLoop_eq host slots tp rn htp (slots + 1) slots alloc (le_refl _) (by omega)
  rw [carveHost, if_neg (by omega), h]
  refine congrArg Except.ok ?_
  rw [Prod.mk.injEq]
  refine ⟨?_, rfl⟩
  simp only [hostCarves, ← List.map_take, List.take_range]
  rw [Nat.min_comm]
  refine List.map_congr_left fun k _ => ?_
  refine congrArg (Prod.mk host) (List.map_congr_left fun j _ => by omega)

/-- The carve windows of the whole pool, host by host, with no global cap. -/
def joinedCarves (pool : List (String × Nat)) (tp : Nat) : List Assign :=
  (pool.map (fun p => hostCarves p.1 p.2 tp)).flatten

lemma length_hostCarves (host : String) (slots tp : Nat) :
    (hostCarves host slots tp).length = slots / tp := by
  simp [hostCarves]

lemma allocateAutoGo_eq (tp rn : Nat) (htp : 0 < tp) :
    ∀ pool alloc acc,
    allocateAutoGo tp rn pool alloc acc =
      if alloc + totalCarves pool tp < rn then
        .error (.insufficientCapacity rn (alloc + totalCarves pool tp))
      else .ok (acc ++ (joinedCarves pool tp).take (rn - alloc)) := by
  intro pool
  induction pool with
  | nil =>
    intro alloc acc
    simp only [allocateAutoGo, totalCarves, joinedCarves, List.map_nil, List.sum_nil,
      List.flatten_nil, List.take_nil, List.append_nil, Nat.add_zero]
  | cons p rest ih =>
    intro alloc acc
    obtain ⟨host, slots⟩ := p
    have htc : totalCarves ((host, slots) :: rest) tp = slots / tp + totalCarves rest tp := by
      simp [totalCarves]
    have hjc : joinedCarves ((host, slots) :: rest) tp
        = hostCarves host slots tp ++ joinedCarves rest tp := by
      simp [joinedCarves]
    simp only [allocateAutoGo, carveHost_eq host slots tp rn alloc htp, ih, htc, hjc]
    rw [List.take_append_eq_append_take, length_hostCarves]
    generalize slots / tp = d
    generalize totalCarves rest tp = t
    by_cases hc : alloc + (d + t) < rn
    · rw [if_pos (by omega), if_pos hc]
      exact congrArg Except.error (congrArg (AllocError.insufficientCapacity rn) (by omega))
    · rw [if_neg (by omega), if_neg hc]
      rw [List.append_assoc]
      refine congrArg Except.ok (congrArg (acc ++ ·) ?_)
      exact congrArg (fun n => (hostCarves host slots tp).take (rn - alloc)
        ++ (joinedCarves rest tp).take n) (by omega)

lemma length_plannedCarves (pool : List (String × Nat)) (tp rn : Nat)
    (hcap : rn ≤ totalCarves pool tp) : (plannedCarves pool tp rn).length = rn := by
  have hlen : ((pool.map (fun p => hostCarves p.1 p.2 tp)).flatten).length
      = totalCarves pool tp := by
    rw [List.length_flatten, List.map_map]
    unfold totalCarves
    congr 1
    apply List.map_congr_left
    intro p _
    simp [length_hostCarves]
  simp [plannedCarves, hlen]
  omega

lemma checkIndexMap_ok_iff (pool : List (String × Nat)) (tp : Nat)
    (gmap : List (String × List Nat)) :
    checkIndexMap pool tp gmap = .ok () ↔
      ∀ p ∈ gmap, ∃ s, lookupHost pool p.1 = some s ∧ tp ≤ s := by
  induction gmap with
  | nil => simp [checkIndexMap]
  | cons q rest ih =>
    obtain ⟨host, idxs⟩ := q
    cases hl : lookupHost pool host with
    | none =>
      simp only [checkIndexMap, hl]
      constructor
      · intro h; exact absurd h (by simp)
      · intro h
        obtain ⟨s, hs, _⟩ := h (host, idxs) (List.mem_cons_self _ _)
        rw [hl] at hs
        cases hs
    | some s =>
      simp only [checkIndexMap, hl]
      by_cases hlt : s < tp
      · rw [if_pos hlt]
        constructor
        · intro h; exact absurd h (by simp)
        · intro h
          obtain ⟨s', hs', hle'⟩ := h (host, idxs) (List.mem_cons_self _ _)
          rw [hl] at hs'
          cases hs'
          omega
      · rw [if_neg hlt, ih]
        simp only [List.forall_mem_cons, hl]
        constructor
        · intro h
          exact ⟨⟨s, rfl, by omega⟩, h⟩
        · intro h
          exact h.2

lemma checkIndexMap_error (pool : List (String × Nat)) (tp : Nat)
    (gmap : List (String × List Nat)) (e : AllocError)
    (h : checkIndexMap pool tp gmap = .error e) :
    (∃ host, e = .hostNotFound host ∧ lookupHost pool host = none)
    ∨ (∃ host s, e = .insufficientSlots host s tp ∧ lookupHost pool host = some s ∧ s < tp) := by
  induction gmap with
  | nil => simp [checkIndexMap] at h
  | cons q rest ih =>
    obtain ⟨host, idxs⟩ := q
    rw [checkIndexMap] at h
    cases hl : lookupHost pool host with
    | none =>
      simp only [hl] at h
      injection h with h'
      exact Or.inl ⟨host, h'.symm, hl⟩
    | some s =>
      simp only [hl] at h
      by_cases hlt : s < tp
      · rw [if_pos hlt] at h
        injection h with h'
        exact Or.inr ⟨host, s, h'.symm, hl, hlt⟩
      · rw [if_neg hlt] at h
        exact ih h

lemma allocateAuto_skip_small (l1 l2 : List (String × Nat)) (host : String)
    (s tp rn : Nat) (htp : 0 < tp) (hs : s < tp) (hne : l1 ++ l2 ≠ []) :
    allocateProcesses (l1 ++ (host, s) :: l2) tp rn none
      = allocateProcesses (l1 ++ l2) tp rn none := by
  have h1 : (l1 ++ (host, s) :: l2) ≠ [] := by simp
  have hdiv : s / tp = 0 := Nat.div_eq_of_lt hs
  have htc : totalCarves (l1 ++ (host, s) :: l2) tp = totalCarves (l1 ++ l2) tp := by
    simp [totalCarves, hdiv]
  have hjc : joinedCarves (l1 ++ (host, s) :: l2) tp = joinedCarves (l1 ++ l2) tp := by
    simp [joinedCarves, hostCarves, hdiv]
  simp only [allocateProcesses, if_neg h1, if_neg hne,
    allocateAutoGo_eq tp rn htp, htc, hjc]

/-- C1: without explicit placement the planner iterates hosts in catalog
order and carves contiguous windows of size `tensorParallelDegree`, the
k-th carve on a host receiving slot indices `[k*tp, (k+1)*tp)`, stopping at
`replicaCount` assignments (`plannedCarves` is that description verbatim);
in particular the catalog `h1:4, h2:2` with `tp = 2`, `replicaCount = 3`
yields exactly `(h1,[0,1]), (h1,[2,3]), (h2,[0,1])` in that order. -/
theorem planner_auto_carves_in_catalog_order (pool : List (String × Nat)) (tp rn : Nat)
    (htp : 0 < tp) (hne : pool ≠ []) (hcap : rn ≤ totalCarves pool tp) :
    allocateProcesses pool tp rn none = .ok (plannedCarves pool tp rn)
    ∧ (plannedCarves pool tp rn).length = rn
    ∧ allocateProcesses [("h1", 4), ("h2", 2)] 2 3 none
        = .ok [("h1", [0, 1]), ("h1", [2, 3]), ("h2", [0, 1])] := by
  refine ⟨?_, length_plannedCarves pool tp rn hcap, by rfl⟩
  have h := allocateAutoGo_eq tp rn htp pool 0 []
  simp only [allocateProcesses, if_neg hne, h,
    if_neg (show ¬ (0 + totalCarves pool tp < rn) by omega)]
  simp [plannedCarves, joinedCarves]

/-- Witness for `planner_auto_carves_in_catalog_order` at the claim's own
scenario catalog. -/
theorem planner_auto_carves_in_catalog_order_witness :
    allocateProcesses [("h1", 4), ("h2", 2)] 2 3 none
      = .ok (plannedCarves [("h1", 4), ("h2", 2)] 2 3) :=
  (planner_auto_carves_in_catalog_order [("h1", 4), ("h2", 2)] 2 3
    (by decide) (by decide) (by decide)).1

/-- C2: when fewer than `replicaCount` assignments can be carved, the
planner fails with the insufficient-capacity error carrying the requested
replica count and the number actually allocatable; in particular catalog
`h1:2` with `tp = 2`, `replicaCount = 2` allocates only 1 replica and
errors with `requested = 2, allocated = 1`. -/
theorem planner_insufficient_capacity_error (pool : List (String × Nat)) (tp rn : Nat)
    (htp : 0 < tp) (hne : pool ≠ []) (hcap : totalCarves pool tp < rn) :
    allocateProcesses pool tp rn none
        = .error (.insufficientCapacity rn (totalCarves pool tp))
    ∧ allocateProcesses [("h1", 2)] 2 2 none = .error (.insufficientCapacity 2 1) := by
  refine ⟨?_, by rfl⟩
  have h := allocateAutoGo_eq tp rn htp pool 0 []
  simp only [allocateProcesses, if_neg hne, h,
    if_pos (show 0 + totalCarves pool tp < rn by omega)]
  simp

/-- Witness for `planner_insufficient_capacity_error` at the claim's own
scenario catalog. -/
theorem planner_insufficient_capacity_error_witness :
    allocateProcesses [("h1", 2)] 2 2 none = .error (.insufficientCapacity 2 1) :=
  (planner_insufficient_capacity_error [("h1", 2)] 2 2
    (by decide) (by decide) (by decide)).2

/-- C7: in automatic mode a host whose total capacity is below the
tensor-parallel degree is silently skipped (deleting it from the catalog
does not change the outcome, and the only error automatic planning can
produce is the final insufficient-capacity one), while in explicit
(`GPU_index_map`) mode the planner succeeds exactly when every listed host
exists with enough slots, and otherwise fails hard with an error naming the
offending host and its shortfall. -/
theorem planner_skips_small_hosts_but_explicit_fails (pool : List (String × Nat))
    (tp rn : Nat) (htp : 0 < tp) (hne : pool ≠ []) :
    (∀ l1 l2 host s, pool = l1 ++ (host, s) :: l2 → s < tp → l1 ++ l2 ≠ [] →
        allocateProcesses pool tp rn none = allocateProcesses (l1 ++ l2) tp rn none)
    ∧ (∀ e, allocateProcesses pool tp rn none = .error e →
        ∃ requested allocated, e = .insufficientCapacity requested allocated)
    ∧ (∀ gmap, allocateProcesses pool tp rn (some gmap) = .ok gmap ↔
        ∀ p ∈ gmap, ∃ s, lookupHost pool p.1 = some s ∧ tp ≤ s)
    ∧ (∀ gmap, allocateProcesses pool tp rn (some gmap) = .ok gmap
        ∨ (∃ host, allocateProcesses pool tp rn (some gmap)
              = .error (.hostNotFound host) ∧ lookupHost pool host = none)
        ∨ (∃ host s, allocateProcesses pool tp rn (some gmap)
              = .error (.insufficientSlots host s tp)
            ∧ lookupHost pool host = some s ∧ s < tp)) := by
  refine ⟨?_, ?_, ?_, ?_⟩
  · intro l1 l2 host s hpool hs hne'
    subst hpool
    exact allocateAuto_skip_small l1 l2 host s tp rn htp hs hne'
  · intro e he
    have h := allocateAutoGo_eq tp rn htp pool 0 []
    simp only [allocateProcesses, if_neg hne, h] at he
    by_cases hc : 0 + totalCarves pool tp < rn
    · rw [if_pos hc] at he
      injection he with he'
      exact ⟨rn, 0 + totalCarves pool tp, he'.symm⟩
    · rw [if_neg hc] at he
      cases he
  · intro gmap
    rw [← checkIndexMap_ok_iff pool tp gmap]
    simp only [allocateProcesses, if_neg hne]
    cases hcheck : checkIndexMap pool tp gmap with
    | ok u =>
      cases u
      simp
    | error e =>
      simp
  · intro gmap
    simp only [allocateProcesses, if_neg hne]
    cases hcheck : checkIndexMap pool tp gmap with
    | ok u =>
      cases u
      exact Or.inl rfl
    | error e =>
      rcases checkIndexMap_error pool tp gmap e hcheck with ⟨host, he, hl⟩ | ⟨host, s, he, hl, hs⟩
      · exact Or.inr (Or.inl ⟨host, by rw [he], hl⟩)
      · exact Or.inr (Or.inr ⟨host, s, by rw [he], hl, hs⟩)

/-- Witness for `planner_skips_small_hosts_but_explicit_fails`: catalog
`h1:4, hsmall:1, h2:2` with `tp = 2` behaves as if `hsmall` were absent,
and the explicit map naming the under-provisioned `hsmall` fails hard. -/
theorem planner_skips_small_hosts_but_explicit_fails_witness :
    allocateProcesses [("h1", 4), ("hsmall", 1), ("h2", 2)] 2 3 none
        = allocateProcesses [("h1", 4), ("h2", 2)] 2 3 none
    ∧ ¬ allocateProcesses [("h1", 4), ("hsmall", 1), ("h2", 2)] 2 3 (some [("hsmall", [0, 1])])
        = .ok [("hsmall", [0, 1])] := by
  have h := planner_skips_small_hosts_but_explicit_fails
    [("h1", 4), ("hsmall", 1), ("h2", 2)] 2 3 (by decide) (by decide)
  constructor
  · exact h.1 [("h1", 4)] [("h2", 2)] "hsmall" 1 (by decide) (by decide) (by decide)
  · intro hok
    have hall := (h.2.2.1 [("hsmall", [0, 1])]).mp hok
    obtain ⟨s, hs, hle⟩ := hall ("hsmall", [0, 1]) (List.mem_cons_self _ _)
    have hs' : some (1 : Nat) = some s :=
      (show lookupHost [("h1", 4), ("hsmall", 1), ("h2", 2)] "hsmall" = some 1 from
        rfl).symm.trans hs
    injection hs' with h1s
    omega

/-! ## Port allocator (`generate_replica_configs`, config.py lines 223-267) -/

/-- A `ReplicaConfig` as built by `generate_replica_configs`. -/
structure ReplicaConfig where
  hostname : String
  tensor_parallel_ports : List Nat
  torch_dist_port : Nat
  gpu_indices : List Nat
deriving DecidableEq, Repr

/-- First-match lookup in the `port_map` association list. -/
def lookupPorts : List (String × List Nat) → String → Option (List Nat)
  | [], _ => none
  | (h, w) :: rest, host => if h = host then some w else lookupPorts rest host

/-- Update (or insert) a host's reserved-port set in `port_map`. -/
def setPorts : List (String × List Nat) → String → List Nat → List (String × List Nat)
  | [], host, v => [(host, v)]
  | (h, w) :: rest, host, v =>
    if h = host then (h, v) :: rest else (h, w) :: setPorts rest host v

/-- `max` of a Python set of ports (only ever taken on a nonempty set). -/
def maxPorts (l : List Nat) : Nat := l.foldr max 0

/-- The `for i, (hostname, gpu_indices) in enumerate(replica_pool)` loop of
`generate_replica_configs` (config.py lines 245-264): candidate base port
`port_number + i * tensor_parallel + port_offset` with `port_offset = 1`,
advanced to `max(port_map[hostname]) + 1` if already reserved; the block
`[base, base + tensor_parallel)` is reserved for the host.  The inner
`for i in range(base_port, base_port + tensor_parallel)` loop reuses the
variable `i`, so the subsequent
`replica_torch_dist_port = torch_dist_port + (100 * i)` reads the *last
reserved port* (`base + tp - 1`) rather than the replica index whenever
`tensor_parallel > 0`; the embedding reproduces that shadowing. -/
def portLoop (P tp td : Nat) :
    List Assign → Nat → List (String × List Nat) → List ReplicaConfig →
    (List ReplicaConfig × List (String × List Nat))
  | [], _, pm, acc => (acc, pm)
  | (hostname, gpus) :: rest, i, pm, acc =>
    let reserved := (lookupPorts pm hostname).getD []
    let base0 := P + i * tp + 1
    let base := if base0 ∈ reserved then maxPorts reserved + 1 else base0
    let ports := (List.range tp).map (fun j => base + j)
    let pm' := setPorts pm hostname (reserved ++ ports)
    let tdp := td + 100 * (if tp = 0 then i else base + tp - 1)
    portLoop P tp td rest (i + 1) pm' (acc ++ [⟨hostname, ports, tdp, gpus⟩])

/-- The loop over `deployment_configs.values()` in `generate_replica_configs`:
each deployment carries its own `(tensor_parallel, torch_dist_port,
replica_pool)`, the enumerate index restarts at 0 per deployment, and the
`port_map` is threaded through all of them (`port_number` is shared). -/
def generateReplicaConfigs (P : Nat) :
    List (Nat × Nat × List Assign) → List (String × List Nat) →
    (List (List ReplicaConfig) × List (String × List Nat))
  | [], pm => ([], pm)
  | (tp, td, pool) :: rest, pm =>
    let r := portLoop P tp td pool 0 pm []
    let r' := generateReplicaConfigs P rest r.2
    (r.1 :: r'.1, r'.2)

/-- The configs the no-advance path produces: replica `i` (0-based) gets the
contiguous block starting at `P + i * tp + 1`; its `torch_dist_port`
records the shadowed loop variable, i.e. the block's last port. -/
def canonicalConfigs (P tp td : Nat) : List Assign → Nat → List ReplicaConfig
  | [], _ => []
  | (h, g) :: rest, i =>
    ⟨h, (List.range tp).map (fun j => P + i * tp + 1 + j),
     td + 100 * (P + i * tp + 1 + tp - 1), g⟩ :: canonicalConfigs P tp td rest (i + 1)

lemma lookupPorts_mem (pm : List (String × List Nat)) (host : String) (l : List Nat)
    (h : lookupPorts pm host = some l) : (host, l) ∈ pm := by
  induction pm with
  | nil => simp [lookupPorts] at h
  | cons q rest ih =>
    obtain ⟨h', w⟩ := q
    by_cases he : h' = host
    · simp only [lookupPorts, if_pos he] at h
      injection h with h'
      subst he h'
      exact List.mem_cons_self _ _
    · simp only [lookupPorts, if_neg he] at h
      exact List.mem_cons_of_mem _ (ih h)

lemma setPorts_mem (pm : List (String × List Nat)) (host : String) (v : List Nat) :
    ∀ pr ∈ setPorts pm host v, pr = (host, v) ∨ pr ∈ pm := by
  induction pm with
  | nil =>
    intro pr hpr
    simp [setPorts] at hpr
    simp [hpr]
  | cons q rest ih =>
    obtain ⟨h', w⟩ := q
    intro pr hpr
    by_cases he : h' = host
    · rw [setPorts, if_pos he] at hpr
      rcases List.mem_cons.mp hpr with h | h
      · exact Or.inl (by rw [h, he])
      · exact Or.inr (List.mem_cons_of_mem _ h)
    · rw [setPorts, if_neg he] at hpr
      rcases List.mem_cons.mp hpr with h | h
      · exact Or.inr (by rw [h]; exact List.mem_cons_self _ _)
      · rcases ih pr h with h2 | h2
        · exact Or.inl h2
        · exact Or.inr (List.mem_cons_of_mem _ h2)

lemma portLoop_canonical (P tp td : Nat) (htp : 0 < tp) :
    ∀ (pool : List Assign) (i : Nat) (pm : List (String × List Nat))
      (acc : List ReplicaConfig),
    (∀ pr ∈ pm, ∀ p ∈ pr.2, p < P + i * tp + 1) →
    (portLoop P tp td pool i pm acc).1 = acc ++ canonicalConfigs P tp td pool i
    ∧ (∀ pr ∈ (portLoop P tp td pool i pm acc).2, ∀ p ∈ pr.2,
        p < P + (i + pool.length) * tp + 1) := by
  intro pool
  induction pool with
  | nil =>
    intro i pm acc hpm
    refine ⟨by simp [portLoop, canonicalConfigs], ?_⟩
    intro pr hpr p hp
    exact lt_of_lt_of_le (hpm pr hpr p hp) (by simp)
  | cons a rest ih =>
    intro i pm acc hpm
    obtain ⟨host, gpus⟩ := a
    have hres : ∀ p ∈ (lookupPorts pm host).getD [], p < P + i * tp + 1 := by
      cases hlu : lookupPorts pm host with
      | none => simp
      | some l =>
        simpa using hpm (host, l) (lookupPorts_mem pm host l hlu)
    have hbase : ¬ (P + i * tp + 1 ∈ (lookupPorts pm host).getD []) := by
      intro hmem
      exact absurd (hres _ hmem) (by omega)
    have hpm' : ∀ pr ∈ setPorts pm host
        ((lookupPorts pm host).getD [] ++
          (List.range tp).map (fun j => P + i * tp + 1 + j)),
        ∀ p ∈ pr.2, p < P + (i + 1) * tp + 1 := by
      intro pr hpr p hp
      have hgrow : P + i * tp + 1 + tp ≤ P + (i + 1) * tp + 1 := by
        simp only [Nat.add_mul, Nat.one_mul]
        omega
      rcases setPorts_mem pm host _ pr hpr with h | h
      · subst h
        simp only [List.mem_append, List.mem_map, List.mem_range] at hp
        rcases hp with hp | ⟨j, hj, hpj⟩
        · exact lt_of_lt_of_le (hres p hp) (by omega)
        · omega
      · exact lt_of_lt_of_le (hpm pr h p hp) (by omega)
    have hstep : portLoop P tp td ((host, gpus) :: rest) i pm acc
        = portLoop P tp td rest (i + 1)
            (setPorts pm host
              ((lookupPorts pm host).getD [] ++
                (List.range tp).map (fun j => P + i * tp + 1 + j)))
            (acc ++ [⟨host, (List.range tp).map (fun j => P + i * tp + 1 + j),
              td + 100 * (P + i * tp + 1 + tp - 1), gpus⟩]) := by
      simp only [portLoop, if_neg hbase, if_neg (by omega : ¬ tp = 0)]
    obtain ⟨ih1, ih2⟩ := ih (i + 1) _ _ hpm'
    rw [hstep]
    refine ⟨?_, ?_⟩
    · rw [ih1, canonicalConfigs]
      simp
    · intro pr hpr p hp
      have := ih2 pr hpr p hp
      have harith : (i + 1 + rest.length) * tp = (i + ((host, gpus) :: rest).length) * tp := by
        simp only [List.length_cons]
        ring_nf
      omega

lemma canonicalConfigs_lb (P tp td : Nat) :
    ∀ (pool : List Assign) (i : Nat) (c : ReplicaConfig),
      c ∈ canonicalConfigs P tp td pool i →
      ∀ p ∈ c.tensor_parallel_ports, P + i * tp + 1 ≤ p := by
  intro pool
  induction pool with
  | nil =>
    intro i c hc
    simp [canonicalConfigs] at hc
  | cons a rest ih =>
    intro i c hc
    obtain ⟨h, g⟩ := a
    rw [canonicalConfigs] at hc
    rcases List.mem_cons.mp hc with h1 | h1
    · subst h1
      intro p hp
      simp only [List.mem_map, List.mem_range] at hp
      obtain ⟨j, hj, rfl⟩ := hp
      omega
    · intro p hp
      have hlb := ih (i + 1) c h1 p hp
      have hexp : (i + 1) * tp = i * tp + tp := by ring
      omega

lemma canonicalConfigs_pairwise_disjoint (P tp td : Nat) :
    ∀ (pool : List Assign) (i : Nat),
      (canonicalConfigs P tp td pool i).Pairwise
        (fun c c' => ∀ p ∈ c.tensor_parallel_ports, p ∉ c'.tensor_parallel_ports) := by
  intro pool
  induction pool with
  | nil => intro i; simp [canonicalConfigs]
  | cons a rest ih =>
    intro i
    obtain ⟨h, g⟩ := a
    rw [canonicalConfigs]
    refine List.Pairwise.cons ?_ (ih (i + 1))
    intro c' hc' p hp hp'
    simp only [List.mem_map, List.mem_range] at hp
    obtain ⟨j, hj, rfl⟩ := hp
    have hlb := canonicalConfigs_lb P tp td rest (i + 1) c' hc' _ hp'
    have hexp : (i + 1) * tp = i * tp + tp := by ring
    omega

/-- C3: from an empty port map the allocator gives replica `i` the
contiguous block starting at `basePort + i*tp + 1` (`canonicalConfigs`),
the advance-to-`max+1` rule fires exactly when the candidate is already
reserved for the host, and in the scenario `basePort = 50000`, two replicas
of `tp = 2` on one host, replica 0 gets `[50001, 50002]` and replica 1 gets
`[50003, 50004]`. -/
theorem port_allocator_contiguous_blocks (P tp td : Nat) (htp : 0 < tp)
    (pool : List Assign) :
    (portLoop P tp td pool 0 [] []).1 = canonicalConfigs P tp td pool 0
    ∧ (∀ host gpus i pm, P + i * tp + 1 ∈ (lookupPorts pm host).getD [] →
        ((portLoop P tp td [(host, gpus)] i pm []).1).map ReplicaConfig.tensor_parallel_ports
          = [(List.range tp).map (fun j => maxPorts ((lookupPorts pm host).getD []) + 1 + j)])
    ∧ ((portLoop 50000 2 29500 [("h1", [0, 1]), ("h1", [2, 3])] 0 [] []).1).map
        ReplicaConfig.tensor_parallel_ports = [[50001, 50002], [50003, 50004]] := by
  refine ⟨?_, ?_, by rfl⟩
  · have h := (portLoop_canonical P tp td htp pool 0 [] [] (by simp)).1
    simpa using h
  · intro host gpus i pm hmem
    have htp0 : ¬ tp = 0 := by omega
    simp [portLoop, hmem, htp0]

/-- Witness for `port_allocator_contiguous_blocks` at the claim's scenario. -/
theorem port_allocator_contiguous_blocks_witness :
    (portLoop 50000 2 29500 [("h1", [0, 1]), ("h1", [2, 3])] 0 [] []).1
      = canonicalConfigs 50000 2 29500 [("h1", [0, 1]), ("h1", [2, 3])] 0 :=
  (port_allocator_contiguous_blocks 50000 2 29500 (by decide)
    [("h1", [0, 1]), ("h1", [2, 3])]).1

/-- C4 counterexample: across two deployments that share host `h2`
(deployment A: `tp = 2` with replicas on `h1` and `h2`; deployment B:
`tp = 3` on `h2`), the port map after A reserves `[50053, 50054]` on `h2`,
B's candidate `50051` is not itself reserved, so no advance happens, and
B's block `[50051, 50052, 50053]` re-reserves port `50053`: blocks on one
host are not pairwise disjoint. -/
theorem port_blocks_overlap_across_deployments :
    ((((generateReplicaConfigs 50050
        [(2, 29500, [("h1", [0, 1]), ("h2", [0, 1])]),
         (3, 29500, [("h2", [0, 1, 2])])] []).1).flatten).map
        (fun c => (c.hostname, c.tensor_parallel_ports))
      = [("h1", [50051, 50052]), ("h2", [50053, 50054]), ("h2", [50051, 50052, 50053])])
    ∧ 50053 ∈ [50053, 50054] ∧ 50053 ∈ [50051, 50052, 50053] :=
  ⟨rfl, by decide, by decide⟩

/-- C4 amended: within a single deployment's allocation pass (one
`replica_pool`, port map initially empty) the shard-port blocks are
pairwise disjoint — in particular pairwise disjoint per host. -/
theorem port_blocks_disjoint_within_deployment (P tp td : Nat) (htp : 0 < tp)
    (pool : List Assign) :
    ((portLoop P tp td pool 0 [] []).1).Pairwise
      (fun c c' => ∀ p ∈ c.tensor_parallel_ports, p ∉ c'.tensor_parallel_ports) := by
  have h := (portLoop_canonical P tp td htp pool 0 [] [] (by simp)).1
  rw [h, List.nil_append]
  exact canonicalConfigs_pairwise_disjoint P tp td pool 0

/-- Witness for `port_blocks_disjoint_within_deployment` at the two-replica
single-host scenario. -/
theorem port_blocks_disjoint_within_deployment_witness :
    ((portLoop 50000 2 29500 [("h1", [0, 1]), ("h1", [2, 3])] 0 [] []).1).Pairwise
      (fun c c' => ∀ p ∈ c.tensor_parallel_ports, p ∉ c'.tensor_parallel_ports) :=
  port_blocks_disjoint_within_deployment 50000 2 29500 (by decide)
    [("h1", [0, 1]), ("h1", [2, 3])]

/-- C6: the coordination (torch distributed) port is *not*
`torch_dist_port + 100 * replicaIndex`: the inner port-reservation loop
reuses the enumerate variable `i`, so replica 0 of a `tp = 1` deployment
with `port_number = 50050`, `torch_dist_port = 29500` receives coordination
port `29500 + 100 * 50051 = 5034600` (100 times its last shard port),
not `29500 + 100 * 0`. -/
theorem torch_dist_port_uses_shadowed_index :
    ((portLoop 50050 1 29500 [("h1", [0])] 0 [] []).1).map ReplicaConfig.torch_dist_port
      = [29500 + 100 * 50051]
    ∧ 29500 + 100 * 50051 ≠ 29500 + 100 * 0 :=
  ⟨rfl, by decide⟩

/-! ## Dispatch client (`_query_in_tensor_parallel` / `query`,
server_client.py lines 172-182 and 244-264) -/

/-- `_query_in_tensor_parallel` fires one RPC task per shard
(`for i in range(self.num_gpus)`), awaits `responses[0]` only, and `query`
returns `responses[0].result()`.  A shard call's eventual outcome is
modelled by `shard : Nat -> Except String α` (an exception from the awaited
task propagates as `.error`); the value the caller observes is the head of
the response list, i.e. shard 0's outcome. -/
def queryInTensorParallel {α : Type} (numGpus : Nat) (shard : Nat → Except String α) :
    Option (Except String α) :=
  ((List.range numGpus).map shard).head?

/-- C5: with at least one shard, `query` observes exactly shard 0's
outcome: if shard 0's call fails, the query fails with that error even when
every other shard succeeds — it never substitutes another shard's result. -/
theorem query_awaits_only_shard_zero {α : Type} (numGpus : Nat)
    (shard : Nat → Except String α) (h : 0 < numGpus) :
    queryInTensorParallel numGpus shard = some (shard 0)
    ∧ (∀ e r, shard 0 = .error e → (∀ i, 0 < i → shard i = .ok r) →
        queryInTensorParallel numGpus shard = some (.error e)) := by
  have hh : queryInTensorParallel numGpus shard = some (shard 0) := by
    cases numGpus with
    | zero => omega
    | succ n => simp [queryInTensorParallel, List.range_succ_eq_map]
  exact ⟨hh, fun e r he _ => by rw [hh, he]⟩

/-- Witness for `query_awaits_only_shard_zero`: two shards, shard 0 fails
with a connection error while shard 1 succeeds; the query fails. -/
theorem query_awaits_only_shard_zero_witness :
    queryInTensorParallel 2
        (fun i => if i = 0 then (.error "conn" : Except String String) else .ok "r")
      = some (.error "conn") :=
  (query_awaits_only_shard_zero 2 _ (by decide)).2 "conn" "r" rfl
    (fun i hi => if_neg (by omega))

/-! ## Startup wait loop (`_wait_until_server_is_live`,
server_client.py lines 100-109) -/

/-- Terminal liveness of one launch attempt. -/
inductive LiveStatus where
  | live : LiveStatus
  | dead : LiveStatus
deriving DecidableEq, Repr

/-- `_wait_until_server_is_live`: each iteration checks
`_is_socket_open(self.port_number)` once (`env t port`, the environment's
answer at poll step `t` — note the loop polls only the single
`self.port_number`, not one port per shard) and
`_is_server_process_alive()` once (`alive t`), raises
`RuntimeError("server crashed ...")` if the process has exited, sleeps a
fixed 4 seconds (no backoff) and repeats until the socket check succeeded.
`fuel` bounds how many iterations we examine; `none` means the loop is
still polling after `fuel` iterations (the loop has no internal timeout). -/
def waitUntilServerLive (env : Nat → Nat → Bool) (alive : Nat → Bool) (port : Nat) :
    Nat → Nat → Option LiveStatus
  | _, 0 => none
  | t, fuel + 1 =>
    if alive t = false then some .dead
    else if env t port then some .live
    else waitUntilServerLive env alive port (t + 1) fuel

/-- Environment in which only the base port 50050 ever accepts connections
(port 50051 — shard 1's port under `port_number + i` — never opens). -/
def envOnlyBase : Nat → Nat → Bool := fun _ p => p == 50050

/-- A worker process that never exits. -/
def aliveAlways : Nat → Bool := fun _ => true

/-- In `envOnlyBase`, shard 1's port 50051 never accepts a connection. -/
def shardPortOneNeverOpen : Prop := ∀ t, envOnlyBase t 50051 = false

/-- C8 counterexample: the wait loop declares the server live as soon as
the single polled base port (50050) accepts, even though shard 1's port
50051 never accepts a connection at any time — the loop does not poll each
shard's port. -/
theorem wait_loop_live_ignores_other_shard_ports :
    shardPortOneNeverOpen
    ∧ waitUntilServerLive envOnlyBase aliveAlways 50050 0 1 = some .live :=
  ⟨fun _ => rfl, rfl⟩

/-- C8 amended: the loop polls only the base port; if the process exits (at
some poll step `T`) before that port has ever accepted a connection, the
loop ends `dead` — and it can only end `live` at a step where the process
was alive and the base port accepted. -/
theorem wait_loop_dead_when_process_exits_first (env : Nat → Nat → Bool)
    (alive : Nat → Bool) (port T : Nat)
    (hclosed : ∀ s, s ≤ T → env s port = false) (hexit : alive T = false) :
    (∀ fuel t, t ≤ T → T - t < fuel →
        waitUntilServerLive env alive port t fuel = some .dead)
    ∧ (∀ fuel t, waitUntilServerLive env alive port t fuel = some .live →
        ∃ s, alive s = true ∧ env s port = true) := by
  constructor
  · intro fuel
    induction fuel with
    | zero => intro t _ h; omega
    | succ fuel ih =>
      intro t ht hf
      cases halive : alive t with
      | false => simp [waitUntilServerLive, halive]
      | true =>
        have htT : t < T := by
          rcases Nat.lt_or_ge t T with h | h
          · exact h
          · have : t = T := by omega
            rw [this, hexit] at halive
            cases halive
        have henv : env t port = false := hclosed t (by omega)
        simp only [waitUntilServerLive, halive, henv]
        simpa using ih (t + 1) (by omega) (by omega)
  · intro fuel
    induction fuel with
    | zero => intro t h; cases h
    | succ fuel ih =>
      intro t h
      cases halive : alive t with
      | false =>
        rw [waitUntilServerLive] at h
        simp [halive] at h
      | true =>
        cases henv : env t port with
        | true => exact ⟨t, halive, henv⟩
        | false =>
          rw [waitUntilServerLive] at h
          simp only [halive, henv] at h
          exact ih (t + 1) (by simpa using h)

/-- A base port that never accepts a connection. -/
def envNeverOpen : Nat → Nat → Bool := fun _ _ => false

/-- A worker process that is alive at poll step 0 and has exited by step 1. -/
def aliveUntilOne : Nat → Bool := fun t => t == 0

/-- Witness for `wait_loop_dead_when_process_exits_first`: the process
exits at step 1 with the port never open, and the loop returns `dead`. -/
theorem wait_loop_dead_when_process_exits_first_witness :
    waitUntilServerLive envNeverOpen aliveUntilOne 50050 0 2 = some .dead :=
  (wait_loop_dead_when_process_exits_first envNeverOpen aliveUntilOne 50050 1
    (fun _ _ => rfl) rfl).1 2 0 (by decide) (by decide)

/-! ## `use_grpc_server` forcing (`MIIServerClient.__init__`,
server_client.py lines 58-68) -/

/-- The constructor computes `num_gpus = mii_configs.tensor_parallel`,
asserts it positive, and sets
`self.use_grpc_server = True if (self.num_gpus > 1) else use_grpc_server`. -/
def initUseGrpcServer (tensor_parallel : Nat) (use_grpc_server_arg : Bool) :
    Except String Bool :=
  if tensor_parallel = 0 then .error "GPU count must be greater than 0"
  else .ok (if 1 < tensor_parallel then true else use_grpc_server_arg)

/-- C10: with tensor-parallel degree above 1 the client always uses the
grpc-server path regardless of the caller's `use_grpc_server` argument;
with degree exactly 1 the caller's value is kept. -/
theorem use_grpc_server_forced_when_multi_gpu (tp : Nat) (arg : Bool) :
    (1 < tp → initUseGrpcServer tp arg = .ok true)
    ∧ initUseGrpcServer 1 arg = .ok arg := by
  constructor
  · intro h
    rw [initUseGrpcServer, if_neg (by omega), if_pos h]
  · rfl

/-- Witness for `use_grpc_server_forced_when_multi_gpu`: `tp = 2` forces
`true` even when the caller passed `false`; `tp = 1` keeps `false`. -/
theorem use_grpc_server_forced_when_multi_gpu_witness :
    initUseGrpcServer 2 false = .ok true ∧ initUseGrpcServer 1 false = .ok false :=
  ⟨(use_grpc_server_forced_when_multi_gpu 2 false).1 (by decide),
   (use_grpc_server_forced_when_multi_gpu 1 false).2⟩

/-! ## Configuration serialization
(`_initialize_service`, server_client.py lines 144-150:
`mii_configs.json().encode()` → `base64.urlsafe_b64encode` → `.decode()`;
`b64_encoded_config`, launch/multi_gpu_server.py lines 16-24:
`.encode()` → `base64.urlsafe_b64decode` → `json.loads` → config constructor).

Bytes are naturals with explicit `< 256` bounds. -/

/-- The urlsafe base64 alphabet: sextet value 0..63 to ASCII code
(`A-Z a-z 0-9 - _`, as used by `base64.urlsafe_b64encode`). -/
def sextetChar (n : Nat) : Nat :=
  if n < 26 then 65 + n
  else if n < 52 then 97 + (n - 26)
  else if n < 62 then 48 + (n - 52)
  else if n = 62 then 45
  else 95

/-- Inverse alphabet: ASCII code back to sextet value. -/
def charSextet (c : Nat) : Option Nat :=
  if 65 ≤ c ∧ c ≤ 90 then some (c - 65)
  else if 97 ≤ c ∧ c ≤ 122 then some (c - 97 + 26)
  else if 48 ≤ c ∧ c ≤ 57 then some (c - 48 + 52)
  else if c = 45 then some 62
  else if c = 95 then some 63
  else none

/-- `base64.urlsafe_b64encode` on a byte sequence: 3-byte groups become 4
alphabet characters; a trailing group of 1 or 2 bytes is padded with `=`
(ASCII 61). -/
def b64encode : List Nat → List Nat
  | a :: b :: c :: rest =>
    sextetChar (a / 4) :: sextetChar ((a % 4) * 16 + b / 16)
      :: sextetChar ((b % 16) * 4 + c / 64) :: sextetChar (c % 64) :: b64encode rest
  | [a, b] => [sextetChar (a / 4), sextetChar ((a % 4) * 16 + b / 16),
               sextetChar ((b % 16) * 4), 61]
  | [a] => [sextetChar (a / 4), sextetChar ((a % 4) * 16), 61, 61]
  | [] => []

/-- `base64.urlsafe_b64decode` on a well-formed encoding: 4-character
groups, `=`-padding only in the final group.  (CPython silently discards
bytes outside the alphabet before decoding; on the well-formed encodings
produced by `b64encode` — the only inputs the deployment pipeline feeds
it — the behaviours coincide, and this model rejects other inputs.) -/
def b64decode : List Nat → Option (List Nat)
  | [] => some []
  | c1 :: c2 :: c3 :: c4 :: rest =>
    match charSextet c1, charSextet c2 with
    | some s1, some s2 =>
      if c3 = 61 then
        if c4 = 61 ∧ rest = [] then some [s1 * 4 + s2 / 16] else none
      else
        match charSextet c3 with
        | some s3 =>
          if c4 = 61 then
            if rest = [] then some [s1 * 4 + s2 / 16, (s2 % 16) * 16 + s3 / 4] else none
          else
            match charSextet c4, b64decode rest with
            | some s4, some tail =>
              some ((s1 * 4 + s2 / 16) :: ((s2 % 16) * 16 + s3 / 4)
                      :: ((s3 % 4) * 64 + s4) :: tail)
            | _, _ => none
        | none => none
    | _, _ => none
  | _ => none

lemma charSextet_sextetChar : ∀ n, n < 64 → charSextet (sextetChar n) = some n := by
  decide

lemma sextetChar_ne_pad : ∀ n, n < 64 → sextetChar n ≠ 61 := by
  decide

/-- Decoding inverts encoding on genuine byte sequences. -/
theorem b64_roundtrip : ∀ l : List Nat, (∀ b ∈ l, b < 256) →
    b64decode (b64encode l) = some l
  | [], _ => rfl
  | [a], h => by
    have ha : a < 256 := h a (by simp)
    have h1 := charSextet_sextetChar (a / 4) (by omega)
    have h2 := charSextet_sextetChar ((a % 4) * 16) (by omega)
    simp only [b64encode, b64decode, h1, h2, if_pos rfl, and_self, if_pos]
    refine congrArg some (congrArg (· :: []) ?_)
    omega
  | [a, b], h => by
    have ha : a < 256 := h a (by simp)
    have hb : b < 256 := h b (by simp)
    have h1 := charSextet_sextetChar (a / 4) (by omega)
    have h2 := charSextet_sextetChar ((a % 4) * 16 + b / 16) (by omega)
    have h3 := charSextet_sextetChar ((b % 16) * 4) (by omega)
    have hne := sextetChar_ne_pad ((b % 16) * 4) (by omega)
    simp only [b64encode, b64decode, h1, h2, h3, if_neg hne, if_pos rfl]
    refine congrArg some ?_
    refine congrArg₂ List.cons ?_ (congrArg (· :: []) ?_) <;> omega
  | a :: b :: c :: rest, h => by
    have ha : a < 256 := h a (by simp)
    have hb : b < 256 := h b (by simp)
    have hc : c < 256 := h c (by simp)
    have h1 := charSextet_sextetChar (a / 4) (by omega)
    have h2 := charSextet_sextetChar ((a % 4) * 16 + b / 16) (by omega)
    have h3 := charSextet_sextetChar ((b % 16) * 4 + c / 64) (by omega)
    have h4 := charSextet_sextetChar (c % 64) (by omega)
    have hne3 := sextetChar_ne_pad ((b % 16) * 4 + c / 64) (by omega)
    have hne4 := sextetChar_ne_pad (c % 64) (by omega)
    have ih := b64_roundtrip rest (fun x hx => h x (by simp [hx]))
    simp only [b64encode, b64decode, h1, h2, h3, h4, if_neg hne3, if_neg hne4, ih]
    refine congrArg some ?_
    refine congrArg₂ List.cons ?_ (congrArg₂ List.cons ?_ (congrArg₂ List.cons ?_ rfl)) <;>
      omega

/-- ASCII bytes of a literal (used for JSON key names and keywords). -/
def asciiBytes (s : String) : List Nat := s.data.map Char.toNat

/-- Bytes of the JSON keyword `true`. -/
def trueBytes : List Nat := asciiBytes "true"

/-- Bytes of the JSON keyword `false`. -/
def falseBytes : List Nat := asciiBytes "false"

/-- JSON string escaping: quote (34) and backslash (92) are prefixed with a
backslash, other bytes pass through. -/
def escapeBytes : List Nat → List Nat
  | [] => []
  | b :: rest => (if b = 34 ∨ b = 92 then [92, b] else [b]) ++ escapeBytes rest

/-- Read an escaped JSON string body up to its closing quote, returning the
unescaped bytes and the remaining input. -/
def unescapeString : List Nat → Option (List Nat × List Nat)
  | [] => none
  | 34 :: rest => some ([], rest)
  | 92 :: [] => none
  | 92 :: e :: rest2 =>
    match unescapeString rest2 with
    | some (s, r) => some (e :: s, r)
    | none => none
  | b :: rest =>
    match unescapeString rest with
    | some (s, r) => some (b :: s, r)
    | none => none

/-- Decimal digits of `n`, most significant first (fuelled so the
definition is structural; `fuel = n + 1` always suffices). -/
def natToBytesGo : Nat → Nat → List Nat
  | 0, _ => []
  | fuel + 1, n => if n < 10 then [48 + n] else natToBytesGo fuel (n / 10) ++ [48 + n % 10]

/-- Decimal rendering of a natural number as ASCII digit bytes. -/
def natToBytes (n : Nat) : List Nat := natToBytesGo (n + 1) n

/-- Value of a digit-byte sequence, most significant first. -/
def digitsVal (ds : List Nat) : Nat := ds.foldl (fun a d => a * 10 + (d - 48)) 0

/-- Digit-byte test. -/
def isDigitByte (b : Nat) : Bool := decide (48 ≤ b ∧ b ≤ 57)

/-- Parse a decimal number: consume the maximal digit run. -/
def parseNat (bs : List Nat) : Option (Nat × List Nat) :=
  let ds := bs.takeWhile isDigitByte
  if ds = [] then none else some (digitsVal ds, bs.dropWhile isDigitByte)

/-- Consume an expected literal byte sequence. -/
def expectBytes : List Nat → List Nat → Option (List Nat)
  | [], bs => some bs
  | _ :: _, [] => none
  | l :: ls, b :: bs => if l = b then expectBytes ls bs else none

/-- Parse `true` or `false`. -/
def parseBool (bs : List Nat) : Option (Bool × List Nat) :=
  match expectBytes trueBytes bs with
  | some r => some (true, r)
  | none =>
    match expectBytes falseBytes bs with
    | some r => some (false, r)
    | none => none

/-- `"key":"value"` with the value escaped. -/
def jsonStrField (key : String) (v : List Nat) : List Nat :=
  [34] ++ asciiBytes key ++ [34, 58, 34] ++ escapeBytes v ++ [34]

/-- `"key":number`. -/
def jsonNatField (key : String) (v : Nat) : List Nat :=
  [34] ++ asciiBytes key ++ [34, 58] ++ natToBytes v

/-- `"key":bool`. -/
def jsonBoolField (key : String) (v : Bool) : List Nat :=
  [34] ++ asciiBytes key ++ [34, 58] ++ (if v then trueBytes else falseBytes)

/-- Parser for one string field. -/
def parseStrField (key : String) (bs : List Nat) : Option (List Nat × List Nat) := do
  let bs ← expectBytes ([34] ++ asciiBytes key ++ [34, 58, 34]) bs
  unescapeString bs

/-- Parser for one number field. -/
def parseNatField (key : String) (bs : List Nat) : Option (Nat × List Nat) := do
  let bs ← expectBytes ([34] ++ asciiBytes key ++ [34, 58]) bs
  parseNat bs

/-- Parser for one boolean field. -/
def parseBoolField (key : String) (bs : List Nat) : Option (Bool × List Nat) := do
  let bs ← expectBytes ([34] ++ asciiBytes key ++ [34, 58]) bs
  parseBool bs

/-- Modelled from the spec: the serializable deployment-configuration
record (`DeploymentConfig`, config.py lines 25-54).  The pydantic
`.json()` / `json.loads` layer the pipeline composes with is library code
outside this source tree; per the specification it serializes the record
deterministically with a fixed field order.  String values are modelled as
byte sequences; the optional / opaque-dict fields (`hf_auth_token`,
`checkpoint_dict`, `ds_config`, `GPU_index_map`, `deploy_rank`,
`replica_configs`, `dtype`) are not modelled — the pipeline treats them
exactly like the fields below. -/
structure DeploymentConfigM where
  deployment_name : List Nat
  load_with_sys_mem : Bool
  meta_tensor : Bool
  torch_dist_port : Nat
  replica_num : Nat
  model : List Nat
  task : List Nat
  model_path : List Nat
  max_tokens : Nat
  tensor_parallel : Nat
  enable_deepspeed : Bool
  enable_zero : Bool
  enable_cuda_graph : Bool
  replace_with_kernel_inject : Bool
deriving DecidableEq, Repr

/-- Modelled from the spec: deterministic JSON rendering of the record,
keys in declaration order (the spec requires deterministic key ordering
so the artifact is byte-identical across runs). -/
def serializeConfig (c : DeploymentConfigM) : List Nat :=
  [123]
  ++ jsonStrField "deployment_name" c.deployment_name ++ [44]
  ++ jsonBoolField "load_with_sys_mem" c.load_with_sys_mem ++ [44]
  ++ jsonBoolField "meta_tensor" c.meta_tensor ++ [44]
  ++ jsonNatField "torch_dist_port" c.torch_dist_port ++ [44]
  ++ jsonNatField "replica_num" c.replica_num ++ [44]
  ++ jsonStrField "model" c.model ++ [44]
  ++ jsonStrField "task" c.task ++ [44]
  ++ jsonStrField "model_path" c.model_path ++ [44]
  ++ jsonNatField "max_tokens" c.max_tokens ++ [44]
  ++ jsonNatField "tensor_parallel" c.tensor_parallel ++ [44]
  ++ jsonBoolField "enable_deepspeed" c.enable_deepspeed ++ [44]
  ++ jsonBoolField "enable_zero" c.enable_zero ++ [44]
  ++ jsonBoolField "enable_cuda_graph" c.enable_cuda_graph ++ [44]
  ++ jsonBoolField "replace_with_kernel_inject" c.replace_with_kernel_inject
  ++ [125]

/-- Sequencing for value-returning parse steps (`Option.bind` with the
remaining input threaded explicitly). -/
def pstep {A R : Type} (m : Option (A × List Nat)) (f : A → List Nat → Option R) :
    Option R :=
  match m with
  | none => none
  | some (a, bs) => f a bs

/-- Sequencing for literal-consuming parse steps. -/
def pseq {R : Type} (m : Option (List Nat)) (f : List Nat → Option R) : Option R :=
  match m with
  | none => none
  | some bs => f bs

/-- Modelled from the spec: `json.loads` followed by the config
constructor, specialised to the rendering above. -/
def parseConfig (bs : List Nat) : Option DeploymentConfigM :=
  pseq (expectBytes [123] bs) fun bs =>
  pstep (parseStrField "deployment_name" bs) fun dn bs =>
  pseq (expectBytes [44] bs) fun bs =>
  pstep (parseBoolField "load_with_sys_mem" bs) fun lw bs =>
  pseq (expectBytes [44] bs) fun bs =>
  pstep (parseBoolField "meta_tensor" bs) fun mt bs =>
  pseq (expectBytes [44] bs) fun bs =>
  pstep (parseNatField "torch_dist_port" bs) fun tdp bs =>
  pseq (expectBytes [44] bs) fun bs =>
  pstep (parseNatField "replica_num" bs) fun rn bs =>
  pseq (expectBytes [44] bs) fun bs =>
  pstep (parseStrField "model" bs) fun mdl bs =>
  pseq (expectBytes [44] bs) fun bs =>
  pstep (parseStrField "task" bs) fun tsk bs =>
  pseq (expectBytes [44] bs) fun bs =>
  pstep (parseStrField "model_path" bs) fun mp bs =>
  pseq (expectBytes [44] bs) fun bs =>
  pstep (parseNatField "max_tokens" bs) fun mtok bs =>
  pseq (expectBytes [44] bs) fun bs =>
  pstep (parseNatField "tensor_parallel" bs) fun tp bs =>
  pseq (expectBytes [44] bs) fun bs =>
  pstep (parseBoolField "enable_deepspeed" bs) fun ed bs =>
  pseq (expectBytes [44] bs) fun bs =>
  pstep (parseBoolField "enable_zero" bs) fun ez bs =>
  pseq (expectBytes [44] bs) fun bs =>
  pstep (parseBoolField "enable_cuda_graph" bs) fun ecg bs =>
  pseq (expectBytes [44] bs) fun bs =>
  pstep (parseBoolField "replace_with_kernel_inject" bs) fun rki bs =>
  pseq (expectBytes [125] bs) fun bs =>
  if bs = [] then
    some ⟨dn, lw, mt, tdp, rn, mdl, tsk, mp, mtok, tp, ed, ez, ecg, rki⟩
  else none

/-- The artifact written by `_initialize_service`: JSON bytes, then
urlsafe base64. -/
def encodeConfigArtifact (c : DeploymentConfigM) : List Nat :=
  b64encode (serializeConfig c)

/-- The reader in `b64_encoded_config`: urlsafe base64 decode, then JSON
parse and reconstruction. -/
def decodeConfigArtifact (bs : List Nat) : Option DeploymentConfigM :=
  (b64decode bs).bind parseConfig

/-- The string-valued fields hold genuine bytes. -/
def configBytesValid (c : DeploymentConfigM) : Prop :=
  (∀ b ∈ c.deployment_name, b < 256) ∧ (∀ b ∈ c.model, b < 256)
  ∧ (∀ b ∈ c.task, b < 256) ∧ (∀ b ∈ c.model_path, b < 256)

lemma expectBytes_append : ∀ l rest : List Nat, expectBytes l (l ++ rest) = some rest := by
  intro l
  induction l with
  | nil => intro rest; rfl
  | cons x xs ih => intro rest; simp [expectBytes, ih]

lemma unescapeString_round : ∀ v rest : List Nat,
    unescapeString (escapeBytes v ++ 34 :: rest) = some (v, rest) := by
  intro v
  induction v with
  | nil => intro rest; rfl
  | cons b bs ih =>
    intro rest
    by_cases hb : b = 34 ∨ b = 92
    · simp only [escapeBytes, if_pos hb, List.cons_append, List.nil_append]
      simp [unescapeString, ih rest]
    · have h1 : ¬ b = 34 := fun h => hb (Or.inl h)
      have h2 : ¬ b = 92 := fun h => hb (Or.inr h)
      simp only [escapeBytes, if_neg hb, List.cons_append, List.nil_append]
      simp [unescapeString, h1, h2, ih rest]

lemma natToBytesGo_spec : ∀ fuel n, n < fuel →
    (∀ b ∈ natToBytesGo fuel n, 48 ≤ b ∧ b ≤ 57)
    ∧ natToBytesGo fuel n ≠ []
    ∧ digitsVal (natToBytesGo fuel n) = n := by
  intro fuel
  induction fuel with
  | zero => intro n h; omega
  | succ fuel ih =>
    intro n h
    by_cases h10 : n < 10
    · refine ⟨?_, by simp [natToBytesGo, h10], ?_⟩
      · intro b hb
        simp [natToBytesGo, h10] at hb
        omega
      · simp [natToBytesGo, h10, digitsVal]
    · have hlt : n / 10 < fuel := by
        have := Nat.div_lt_self (show 0 < n by omega) (show 1 < 10 by omega)
        omega
      have hrec := ih (n / 10) hlt
      simp only [natToBytesGo, if_neg h10]
      refine ⟨?_, by simp, ?_⟩
      · intro b hb
        rcases List.mem_append.mp hb with hb | hb
        · exact hrec.1 b hb
        · simp at hb
          omega
      · have hfold : digitsVal (natToBytesGo fuel (n / 10) ++ [48 + n % 10])
            = digitsVal (natToBytesGo fuel (n / 10)) * 10 + (48 + n % 10 - 48) := by
          simp [digitsVal, List.foldl_append]
        rw [hfold, hrec.2.2]
        omega

lemma natToBytes_spec (n : Nat) :
    (∀ b ∈ natToBytes n, 48 ≤ b ∧ b ≤ 57)
    ∧ natToBytes n ≠ [] ∧ digitsVal (natToBytes n) = n :=
  natToBytesGo_spec (n + 1) n (by omega)

lemma takeWhile_stops {P : Nat → Bool} : ∀ (xs rest : List Nat),
    (∀ x ∈ xs, P x = true) → (∀ d, rest.head? = some d → P d = false) →
    (xs ++ rest).takeWhile P = xs ∧ (xs ++ rest).dropWhile P = rest := by
  intro xs
  induction xs with
  | nil =>
    intro rest _ hrest
    cases rest with
    | nil => simp
    | cons d r =>
      have := hrest d rfl
      simp [List.takeWhile, List.dropWhile, this]
  | cons x xs ih =>
    intro rest hall hrest
    have hx : P x = true := hall x (by simp)
    have := ih rest (fun y hy => hall y (by simp [hy])) hrest
    simp [List.takeWhile, List.dropWhile, hx, this.1, this.2]

lemma parseNat_round (n : Nat) (rest : List Nat)
    (hrest : ∀ d, rest.head? = some d → isDigitByte d = false) :
    parseNat (natToBytes n ++ rest) = some (n, rest) := by
  have hspec := natToBytes_spec n
  have hall : ∀ x ∈ natToBytes n, isDigitByte x = true := by
    intro x hx
    have := hspec.1 x hx
    simp [isDigitByte]
    omega
  have hsplit := takeWhile_stops (natToBytes n) rest hall hrest
  rw [parseNat]
  simp only [hsplit.1, hsplit.2]
  rw [if_neg hspec.2.1, hspec.2.2]

lemma parseBool_round (v : Bool) (rest : List Nat) :
    parseBool ((if v then trueBytes else falseBytes) ++ rest) = some (v, rest) := by
  cases v
  · have hmiss : expectBytes trueBytes (falseBytes ++ rest) = none := by
      simp [trueBytes, falseBytes, asciiBytes, expectBytes]
    simp [parseBool, hmiss, expectBytes_append]
  · simp [parseBool, expectBytes_append]

lemma parseStrField_round (key : String) (v rest : List Nat) :
    parseStrField key (jsonStrField key v ++ rest) = some (v, rest) := by
  have hshape : jsonStrField key v ++ rest
      = ([34] ++ asciiBytes key ++ [34, 58, 34]) ++ (escapeBytes v ++ 34 :: rest) := by
    simp [jsonStrField]
  rw [parseStrField, hshape, expectBytes_append]
  simpa using unescapeString_round v rest

lemma parseNatField_round (key : String) (v : Nat) (rest : List Nat)
    (hrest : ∀ d, rest.head? = some d → isDigitByte d = false) :
    parseNatField key (jsonNatField key v ++ rest) = some (v, rest) := by
  have hshape : jsonNatField key v ++ rest
      = ([34] ++ asciiBytes key ++ [34, 58]) ++ (natToBytes v ++ rest) := by
    simp [jsonNatField]
  rw [parseNatField, hshape, expectBytes_append]
  simpa using parseNat_round v rest hrest

lemma parseNatField_round_comma (key : String) (v : Nat) (tail : List Nat) :
    parseNatField key (jsonNatField key v ++ ([44] ++ tail)) = some (v, [44] ++ tail) := by
  refine parseNatField_round key v ([44] ++ tail) ?_
  intro d hd
  simp at hd
  subst hd
  rfl

lemma parseBoolField_round (key : String) (v : Bool) (rest : List Nat) :
    parseBoolField key (jsonBoolField key v ++ rest) = some (v, rest) := by
  have hshape : jsonBoolField key v ++ rest
      = ([34] ++ asciiBytes key ++ [34, 58]) ++ ((if v then trueBytes else falseBytes) ++ rest) := by
    simp [jsonBoolField]
  rw [parseBoolField, hshape, expectBytes_append]
  simpa using parseBool_round v rest

lemma pseq_some {R : Type} (bs : List Nat) (f : List Nat → Option R) :
    pseq (some bs) f = f bs := rfl

lemma pstep_some {A R : Type} (a : A) (bs : List Nat) (f : A → List Nat → Option R) :
    pstep (some (a, bs)) f = f a bs := rfl

/-- Parsing inverts serialization. -/
theorem parseConfig_round (c : DeploymentConfigM) :
    parseConfig (serializeConfig c) = some c := by
  obtain ⟨dn, lw, mt, tdp, rn, mdl, tsk, mp, mtok, tp, ed, ez, ecg, rki⟩ := c
  rw [parseConfig, serializeConfig]
  rw [show ([123] : List Nat) ++ jsonStrField "deployment_name" dn ++ [44]
        ++ jsonBoolField "load_with_sys_mem" lw ++ [44]
        ++ jsonBoolField "meta_tensor" mt ++ [44]
        ++ jsonNatField "torch_dist_port" tdp ++ [44]
        ++ jsonNatField "replica_num" rn ++ [44]
        ++ jsonStrField "model" mdl ++ [44]
        ++ jsonStrField "task" tsk ++ [44]
        ++ jsonStrField "model_path" mp ++ [44]
        ++ jsonNatField "max_tokens" mtok ++ [44]
        ++ jsonNatField "tensor_parallel" tp ++ [44]
        ++ jsonBoolField "enable_deepspeed" ed ++ [44]
        ++ jsonBoolField "enable_zero" ez ++ [44]
        ++ jsonBoolField "enable_cuda_graph" ecg ++ [44]
        ++ jsonBoolField "replace_with_kernel_inject" rki ++ [125]
      = [123] ++ (jsonStrField "deployment_name" dn ++ ([44]
        ++ (jsonBoolField "load_with_sys_mem" lw ++ ([44]
        ++ (jsonBoolField "meta_tensor" mt ++ ([44]
        ++ (jsonNatField "torch_dist_port" tdp ++ ([44]
        ++ (jsonNatField "replica_num" rn ++ ([44]
        ++ (jsonStrField "model" mdl ++ ([44]
        ++ (jsonStrField "task" tsk ++ ([44]
        ++ (jsonStrField "model_path" mp ++ ([44]
        ++ (jsonNatField "max_tokens" mtok ++ ([44]
        ++ (jsonNatField "tensor_parallel" tp ++ ([44]
        ++ (jsonBoolField "enable_deepspeed" ed ++ ([44]
        ++ (jsonBoolField "enable_zero" ez ++ ([44]
        ++ (jsonBoolField "enable_cuda_graph" ecg ++ ([44]
        ++ (jsonBoolField "replace_with_kernel_inject" rki
            ++ [125])))))))))))))))))))))))))))
      from by simp [List.append_assoc]]
  rw [expectBytes_append, pseq_some, parseStrField_round, pstep_some,
    expectBytes_append, pseq_some, parseBoolField_round, pstep_some,
    expectBytes_append, pseq_some, parseBoolField_round, pstep_some,
    expectBytes_append, pseq_some, parseNatField_round_comma, pstep_some,
    expectBytes_append, pseq_some, parseNatField_round_comma, pstep_some,
    expectBytes_append, pseq_some, parseStrField_round, pstep_some,
    expectBytes_append, pseq_some, parseStrField_round, pstep_some,
    expectBytes_append, pseq_some, parseStrField_round, pstep_some,
    expectBytes_append, pseq_some, parseNatField_round_comma, pstep_some,
    expectBytes_append, pseq_some, parseNatField_round_comma, pstep_some,
    expectBytes_append, pseq_some, parseBoolField_round, pstep_some,
    expectBytes_append, pseq_some, parseBoolField_round, pstep_some,
    expectBytes_append, pseq_some, parseBoolField_round, pstep_some,
    expectBytes_append, pseq_some, parseBoolField_round, pstep_some]
  rfl

lemma append_bytes_lt {l1 l2 : List Nat} (h1 : ∀ b ∈ l1, b < 256)
    (h2 : ∀ b ∈ l2, b < 256) : ∀ b ∈ l1 ++ l2, b < 256 := by
  intro b hb
  rcases List.mem_append.mp hb with h | h
  · exact h1 b h
  · exact h2 b h

lemma escapeBytes_lt {v : List Nat} (h : ∀ b ∈ v, b < 256) :
    ∀ b ∈ escapeBytes v, b < 256 := by
  induction v with
  | nil => simp [escapeBytes]
  | cons x xs ih =>
    intro b hb
    have hx : x < 256 := h x (by simp)
    have hxs : ∀ b ∈ xs, b < 256 := fun b hb => h b (by simp [hb])
    rw [escapeBytes] at hb
    rcases List.mem_append.mp hb with h' | h'
    · by_cases hc : x = 34 ∨ x = 92
      · rw [if_pos hc] at h'
        simp at h'
        rcases h' with h' | h' <;> omega
      · rw [if_neg hc] at h'
        simp at h'
        omega
    · exact ih hxs b h'

lemma natToBytes_lt (n : Nat) : ∀ b ∈ natToBytes n, b < 256 := by
  intro b hb
  have := (natToBytes_spec n).1 b hb
  omega

lemma jsonStrField_lt (key : String) (v : List Nat)
    (hk : ∀ b ∈ asciiBytes key, b < 256) (hv : ∀ b ∈ v, b < 256) :
    ∀ b ∈ jsonStrField key v, b < 256 := by
  intro b hb
  simp only [jsonStrField, List.append_assoc, List.mem_append] at hb
  rcases hb with hb | hb | hb | hb | hb
  · simp at hb; omega
  · exact hk b hb
  · simp at hb; omega
  · exact escapeBytes_lt hv b hb
  · simp at hb; omega

lemma jsonNatField_lt (key : String) (v : Nat)
    (hk : ∀ b ∈ asciiBytes key, b < 256) :
    ∀ b ∈ jsonNatField key v, b < 256 := by
  intro b hb
  simp only [jsonNatField, List.append_assoc, List.mem_append] at hb
  rcases hb with hb | hb | hb | hb
  · simp at hb; omega
  · exact hk b hb
  · simp at hb; omega
  · exact natToBytes_lt v b hb

lemma jsonBoolField_lt (key : String) (v : Bool)
    (hk : ∀ b ∈ asciiBytes key, b < 256) :
    ∀ b ∈ jsonBoolField key v, b < 256 := by
  intro b hb
  simp only [jsonBoolField, List.append_assoc, List.mem_append] at hb
  rcases hb with hb | hb | hb | hb
  · simp at hb; omega
  · exact hk b hb
  · simp at hb; omega
  · cases v <;> revert hb <;> simp [trueBytes, falseBytes, asciiBytes] <;> omega

lemma serializeConfig_lt (c : DeploymentConfigM) (h : configBytesValid c) :
    ∀ b ∈ serializeConfig c, b < 256 := by
  obtain ⟨h1, h2, h3, h4⟩ := h
  intro b hb
  simp only [serializeConfig, List.append_assoc, List.mem_append] at hb
  rcases hb with hb|hb|hb|hb|hb|hb|hb|hb|hb|hb|hb|hb|hb|hb|hb|hb|hb|hb|hb|hb|hb|hb|hb|hb|hb|hb|hb|hb|hb
  all_goals first
    | (simp at hb; omega)
    | exact jsonStrField_lt _ _ (by decide) h1 b hb
    | exact jsonStrField_lt _ _ (by decide) h2 b hb
    | exact jsonStrField_lt _ _ (by decide) h3 b hb
    | exact jsonStrField_lt _ _ (by decide) h4 b hb
    | exact jsonNatField_lt _ _ (by decide) b hb
    | exact jsonBoolField_lt _ _ (by decide) b hb

/-- C9: the artifact pipeline (JSON render, urlsafe base64 encode, base64
decode, JSON parse, reconstruct) returns a configuration equal in all
fields to the original, and the same logical configuration always encodes
to the same byte-identical artifact. -/
theorem deployment_config_serialization_roundtrip (c : DeploymentConfigM)
    (h : configBytesValid c) :
    decodeConfigArtifact (encodeConfigArtifact c) = some c
    ∧ (∀ c2 : DeploymentConfigM, c2 = c → encodeConfigArtifact c2 = encodeConfigArtifact c) := by
  refine ⟨?_, fun c2 hc2 => by rw [hc2]⟩
  rw [encodeConfigArtifact, decodeConfigArtifact,
    b64_roundtrip (serializeConfig c) (serializeConfig_lt c h)]
  simp [parseConfig_round]

/-- A concrete configuration for the round-trip witness. -/
def sampleConfig : DeploymentConfigM :=
  ⟨asciiBytes "bloom", false, false, 29500, 1, asciiBytes "bigscience/bloom",
   asciiBytes "text-generation", asciiBytes "/tmp/mii_models", 1024, 2,
   true, false, false, true⟩

/-- Witness for `deployment_config_serialization_roundtrip` at
`sampleConfig`. -/
theorem deployment_config_serialization_roundtrip_witness :
    decodeConfigArtifact (encodeConfigArtifact sampleConfig) = some sampleConfig :=
  (deployment_config_serialization_roundtrip sampleConfig
    ⟨by decide, by decide, by decide, by decide⟩).1

end MII
